import Mathlib

/-!
Shallow embedding of `preprocess.py` from the virtual-ta-tds project:
the chunking algorithm (`create_chunks`), the two chunk tables of the
SQLite store, the ingestion adapters (`process_discourse`,
`process_markdown`) and the embedding backfill (`generate_embeddings`),
together with theorems settling the specification's claims.

Text is modelled as `List Char`; the SQLite tables as Lean lists of row
structures; the fallible markdown ingestion as `Except`.
-/

set_option autoImplicit false
set_option maxRecDepth 4000

namespace Preprocess

/-! ### Chunker (`create_chunks`, preprocess.py lines 66-73) -/

/-- Chunk size config, preprocess.py line 22: `CHUNK_SIZE = 1000`. -/
def CHUNK_SIZE : Nat := 1000

/-- Chunk overlap config, preprocess.py line 23: `CHUNK_OVERLAP = 200`. -/
def CHUNK_OVERLAP : Nat := 200

/-- The whitespace characters removed by Python's `str.strip()`
(modelled over the ASCII range, which is all the claims exercise):
space, tab, newline, carriage return, vertical tab, form feed. -/
def pyIsSpace (c : Char) : Bool :=
  c == ' ' || c == '\t' || c == '\n' || c == '\r' || c == '\x0b' || c == '\x0c'

/-- Python `str.strip()`: remove leading and trailing whitespace. -/
def pyStrip (l : List Char) : List Char :=
  ((l.dropWhile pyIsSpace).reverse.dropWhile pyIsSpace).reverse

/-- The character map of Python `text.replace('\n', ' ')`. -/
def replNewline (c : Char) : Char :=
  if c = '\n' then ' ' else c

/-- `text.replace('\n', ' ').strip()` — the first line of `create_chunks`. -/
def normalizeWS (l : List Char) : List Char :=
  pyStrip (l.map replNewline)

/-- The loop `for i in range(0, len(text), step): chunks.append(text[i:i+size])`
of `create_chunks`, with `i` the running start offset and `fuel` an upper
bound on the remaining iterations (the loop advances `i` by `step ≥ 1` each
pass while `i < len(text)`, so `len(text)` iterations always suffice). -/
def chunkAux (t : List Char) (size step : Nat) : Nat → Nat → List (List Char)
  | 0, _ => []
  | fuel + 1, i =>
    if i < t.length then ((t.drop i).take size) :: chunkAux t size step fuel (i + step)
    else []

/-- `create_chunks(text)`, preprocess.py lines 66-73: normalize whitespace,
return the whole text if it fits in one chunk, otherwise slide a window of
width `CHUNK_SIZE` advancing by `CHUNK_SIZE - CHUNK_OVERLAP`. -/
def create_chunks (text : List Char) : List (List Char) :=
  let t := normalizeWS text
  if t.length ≤ CHUNK_SIZE then [t]
  else chunkAux t CHUNK_SIZE (CHUNK_SIZE - CHUNK_OVERLAP) t.length 0

/-! ### Basic chunker lemmas -/

theorem chunkAux_nil (t : List Char) (size step fuel i : Nat)
    (h : t.length ≤ i) : chunkAux t size step fuel i = [] := by
  cases fuel with
  | zero => rfl
  | succ f => simp [chunkAux, Nat.not_lt.mpr h]

theorem chunkAux_cons (t : List Char) (size step fuel i : Nat)
    (h : i < t.length) :
    chunkAux t size step (fuel + 1) i
      = ((t.drop i).take size) :: chunkAux t size step fuel (i + step) := by
  simp [chunkAux, h]

/-- Concatenating the chunks from offset `i`, each stripped of its first
`CHUNK_OVERLAP` characters, yields the tail of the text from `i + 200`. -/
theorem chunkAux_join_drop (t : List Char) :
    ∀ fuel i, t.length ≤ i + fuel →
      ((chunkAux t 1000 800 fuel i).map (fun c => c.drop 200)).flatten
        = t.drop (i + 200) := by
  intro fuel
  induction fuel with
  | zero =>
    intro i h
    rw [chunkAux_nil t 1000 800 0 i (by omega)]
    simp [List.drop_eq_nil_of_le (by omega : t.length ≤ i + 200)]
  | succ f ih =>
    intro i h
    by_cases hi : i < t.length
    · rw [chunkAux_cons t 1000 800 f i hi]
      simp only [List.map_cons, List.flatten_cons]
      rw [ih (i + 800) (by omega)]
      have h1 : ((t.drop i).take 1000).drop 200 = ((t.drop i).drop 200).take 800 := by
        rw [List.drop_take]
      have hd1 : List.drop 200 (List.drop i t) = List.drop (i + 200) t := by
        rw [List.drop_drop]
      have hd2 : List.drop (i + 800 + 200) t = List.drop 800 (List.drop (i + 200) t) := by
        rw [List.drop_drop]
      rw [h1, hd1, hd2]
      exact List.take_append_drop 800 (t.drop (i + 200))
    · rw [chunkAux_nil t 1000 800 (f + 1) i (by omega)]
      simp [List.drop_eq_nil_of_le (by omega : t.length ≤ i + 200)]

/-- The `k`-th chunk produced from offset `i` is the window of width
`CHUNK_SIZE` starting at `i + 800 * k`, present exactly when that start
offset is still inside the text. -/
theorem chunkAux_getElem? (t : List Char) :
    ∀ fuel i k, t.length ≤ i + fuel →
      (chunkAux t 1000 800 fuel i)[k]?
        = if i + 800 * k < t.length then some ((t.drop (i + 800 * k)).take 1000)
          else none := by
  intro fuel
  induction fuel with
  | zero =>
    intro i k h
    rw [chunkAux_nil t 1000 800 0 i (by omega)]
    rw [if_neg (by omega)]
    simp
  | succ f ih =>
    intro i k h
    by_cases hi : i < t.length
    · rw [chunkAux_cons t 1000 800 f i hi]
      cases k with
      | zero => simp [hi]
      | succ k =>
        simp only [List.getElem?_cons_succ]
        rw [ih (i + 800) k (by omega)]
        have he : i + 800 + 800 * k = i + 800 * (k + 1) := by ring
        rw [he]
    · rw [chunkAux_nil t 1000 800 (f + 1) i (by omega)]
      rw [if_neg (by omega)]
      simp

/-- The number of chunks produced from offset `i` is the number of window
starts below the text length: `⌈(len − i) / 800⌉`. -/
theorem chunkAux_length (t : List Char) :
    ∀ fuel i, t.length ≤ i + fuel →
      (chunkAux t 1000 800 fuel i).length = (t.length - i + 799) / 800 := by
  intro fuel
  induction fuel with
  | zero =>
    intro i h
    rw [chunkAux_nil t 1000 800 0 i (by omega)]
    have h0 : t.length - i = 0 := by omega
    rw [h0]; norm_num
  | succ f ih =>
    intro i h
    by_cases hi : i < t.length
    · rw [chunkAux_cons t 1000 800 f i hi, List.length_cons, ih (i + 800) (by omega)]
      rcases le_or_lt 800 (t.length - i) with h8 | h8
      · have e1 : t.length - (i + 800) + 799 + 800 = t.length - i + 799 := by omega
        rw [← e1, Nat.add_div_right _ (by norm_num)]
      · have e1 : t.length - (i + 800) = 0 := by omega
        rw [e1]
        have e2 : (t.length - i + 799) / 800 = 1 := by
          apply Nat.div_eq_of_lt_le <;> omega
        rw [e2]
    · rw [chunkAux_nil t 1000 800 (f + 1) i (by omega)]
      have h0 : t.length - i = 0 := by omega
      rw [h0]; norm_num

/-! ### Whitespace-normalization algebra -/

theorem head?_dropWhile_eq_false {α : Type} (p : α → Bool) :
    ∀ (l : List α) (c : α), (l.dropWhile p).head? = some c → p c = false := by
  intro l
  induction l with
  | nil => intro c h; simp at h
  | cons a rest ih =>
    intro c h
    by_cases ha : p a = true
    · rw [List.dropWhile_cons, if_pos ha] at h
      exact ih c h
    · rw [List.dropWhile_cons, if_neg ha] at h
      simp at h
      rw [← h]
      exact Bool.eq_false_iff.mpr ha

theorem getLast?_dropWhile {α : Type} (p : α → Bool) :
    ∀ l : List α, l.dropWhile p ≠ [] → (l.dropWhile p).getLast? = l.getLast? := by
  intro l
  induction l with
  | nil => intro h; simp at h
  | cons a rest ih =>
    intro h
    by_cases ha : p a = true
    · rw [List.dropWhile_cons, if_pos ha] at h ⊢
      cases rest with
      | nil => simp at h
      | cons b bs => rw [List.getLast?_cons_cons]; exact ih h
    · rw [List.dropWhile_cons, if_neg ha]

theorem dropWhile_dropWhile {α : Type} (p : α → Bool) :
    ∀ l : List α, (l.dropWhile p).dropWhile p = l.dropWhile p := by
  intro l
  induction l with
  | nil => rfl
  | cons a rest ih =>
    by_cases ha : p a = true
    · rw [List.dropWhile_cons, if_pos ha]; exact ih
    · rw [List.dropWhile_cons, if_neg ha, List.dropWhile_cons, if_neg ha]

theorem dropWhile_pyStrip (l : List Char) :
    (pyStrip l).dropWhile pyIsSpace = pyStrip l := by
  rcases e : pyStrip l with _ | ⟨c, rest⟩
  · rfl
  · have hw : ((l.dropWhile pyIsSpace).reverse.dropWhile pyIsSpace) ≠ [] := by
      intro h0
      rw [pyStrip, h0] at e
      simp at e
    have hc : ((l.dropWhile pyIsSpace).reverse.dropWhile pyIsSpace).reverse.head? = some c := by
      rw [← pyStrip, e]; rfl
    rw [List.head?_reverse] at hc
    rw [getLast?_dropWhile pyIsSpace _ hw, List.getLast?_reverse] at hc
    have hfalse : pyIsSpace c = false := head?_dropWhile_eq_false pyIsSpace l c hc
    rw [List.dropWhile_cons, if_neg (by simp [hfalse])]

theorem pyStrip_idem (l : List Char) : pyStrip (pyStrip l) = pyStrip l := by
  conv_lhs => rw [pyStrip, dropWhile_pyStrip l]
  rw [pyStrip, List.reverse_reverse, dropWhile_dropWhile]

theorem replNewline_of_ne (c : Char) (h : ¬c = '\n') : replNewline c = c := by
  rw [replNewline, if_neg h]

theorem pyIsSpace_replNewline (c : Char) :
    pyIsSpace (replNewline c) = pyIsSpace c := by
  by_cases h : c = '\n'
  · rw [h]; rfl
  · rw [replNewline_of_ne c h]

theorem dropWhile_map_replNewline (l : List Char) :
    (l.map replNewline).dropWhile pyIsSpace
      = (l.dropWhile pyIsSpace).map replNewline := by
  have hp : pyIsSpace ∘ replNewline = pyIsSpace := funext pyIsSpace_replNewline
  rw [List.dropWhile_map, hp]

theorem map_replNewline_pyStrip (l : List Char) :
    (pyStrip l).map replNewline = pyStrip (l.map replNewline) := by
  simp only [pyStrip, List.map_reverse, ← dropWhile_map_replNewline]

theorem normalizeWS_pyStrip (l : List Char) :
    normalizeWS (pyStrip l) = normalizeWS l := by
  rw [normalizeWS, map_replNewline_pyStrip, ← normalizeWS, normalizeWS, pyStrip_idem]

theorem replNewline_replNewline (c : Char) :
    replNewline (replNewline c) = replNewline c := by
  by_cases h : c = '\n'
  · rw [h]; rfl
  · rw [replNewline_of_ne c h, replNewline_of_ne c h]

theorem map_replNewline_idem (l : List Char) :
    (l.map replNewline).map replNewline = l.map replNewline := by
  induction l with
  | nil => rfl
  | cons a rest ih =>
    simp only [List.map_cons, ih, replNewline_replNewline]

theorem normalizeWS_idem (l : List Char) :
    normalizeWS (normalizeWS l) = normalizeWS l := by
  simp only [normalizeWS]
  rw [map_replNewline_pyStrip, pyStrip_idem, map_replNewline_idem]

/-- `create_chunks` is insensitive to pre-stripping its input: the internal
normalization subsumes an outer `strip()`. -/
theorem create_chunks_pyStrip (l : List Char) :
    create_chunks (pyStrip l) = create_chunks l := by
  rw [create_chunks, create_chunks, normalizeWS_pyStrip]

/-! ### Data model (`create_db`, preprocess.py lines 26-58)

A table row holds the store-assigned `id` (INTEGER PRIMARY KEY
AUTOINCREMENT), the source-kind-specific provenance columns (`meta`), the
`chunk_index` and `content` columns, and the nullable `embedding` BLOB. -/

/-- The serialized embedding BLOB (`json.dumps(...).encode()` in the code);
its byte content is opaque to every operation of the core. -/
abbrev Blob : Type := List Char

/-- Provenance columns of the `discourse_chunks` table. -/
structure DiscourseMeta where
  post_id : Int
  topic_id : Int
  topic_title : List Char
  post_number : Int
  author : List Char
  created_at : List Char
  likes : Int
  url : List Char
deriving DecidableEq

/-- Provenance columns of the `markdown_chunks` table. -/
structure MarkdownMeta where
  doc_title : List Char
  original_url : List Char
  downloaded_at : List Char
deriving DecidableEq

/-- One row of a chunk table (`discourse_chunks` with `μ = DiscourseMeta`,
`markdown_chunks` with `μ = MarkdownMeta`). -/
structure ChunkRow (μ : Type) where
  id : Nat
  meta : μ
  chunk_index : Nat
  content : List Char
  embedding : Option Blob
deriving DecidableEq

/-- The persistent store: the two chunk tables plus the AUTOINCREMENT
counters SQLite keeps for their `id` columns. -/
structure Store where
  discourse : List (ChunkRow DiscourseMeta)
  markdown : List (ChunkRow MarkdownMeta)
  nextDid : Nat
  nextMid : Nat

/-- The freshly created store (`create_db`; AUTOINCREMENT starts at 1). -/
def emptyStore : Store := ⟨[], [], 1, 1⟩

/-! ### Discourse ingestion (`process_discourse`, preprocess.py lines 76-97) -/

/-- One record of `discourse_posts.json`. -/
structure Post where
  post_id : Int
  topic_id : Int
  topic_title : List Char
  post_number : Int
  author : List Char
  created_at : List Char
  like_count : Int
  url : List Char
  content : List Char

/-- The provenance columns the INSERT at lines 87-95 copies from a post
(the `likes` column receives the post's `like_count`). -/
def Post.meta (p : Post) : DiscourseMeta :=
  ⟨p.post_id, p.topic_id, p.topic_title, p.post_number, p.author,
    p.created_at, p.like_count, p.url⟩

/-- The rows inserted for one post: `clean_text = post["content"].strip()`,
`chunks = create_chunks(clean_text)`, then one row per `(idx, chunk)` of
`enumerate(chunks)` with `embedding = None` and ids assigned by
AUTOINCREMENT from `startId`. -/
def postRows (startId : Nat) (p : Post) : List (ChunkRow DiscourseMeta) :=
  (create_chunks (pyStrip p.content)).enum.map
    (fun ic => ⟨startId + ic.1, p.meta, ic.1, ic.2, none⟩)

/-- `process_discourse`: insert the chunk rows of every post, in order. -/
def process_discourse (posts : List Post) (st : Store) : Store :=
  posts.foldl
    (fun s p =>
      let rows := postRows s.nextDid p
      { s with discourse := s.discourse ++ rows, nextDid := s.nextDid + rows.length })
    st

/-! ### Markdown ingestion (`process_markdown`, preprocess.py lines 100-129) -/

/-- Errors of the ingestion run. `attributeError` is Python's
`AttributeError`, raised at lines 117-119 when `re.search(...)` returns
`None` and `.group(1)` is called on it. `malformedDocumentError` is the
error the SPEC names for that situation; the code never raises it and has
no such class — the constructor exists only so the spec's claim about it
can be stated and compared against the code's behavior. -/
inductive IngestError where
  | attributeError
  | malformedDocumentError
deriving DecidableEq

/-- Whether `pat` occurs at the start of `s`. -/
def matchesAt (pat s : List Char) : Bool :=
  s.take pat.length == pat

/-- Index of the first occurrence of `pat` in `s` (`None` if absent) —
the search a regex engine performs for a plain-text pattern. -/
def findSub (pat : List Char) : List Char → Option Nat
  | [] => if matchesAt pat [] then some 0 else none
  | c :: rest =>
    if matchesAt pat (c :: rest) then some 0
    else (findSub pat rest).map (· + 1)

/-- `re.match(r'^---\n(.*?)\n---\n', content, re.DOTALL)` (line 112): the
content must start with `---\n`; the non-greedy group captures up to the
first following `\n---\n`. Returns `(group(1), content[match.end():])`. -/
def matchFrontmatter (content : List Char) : Option (List Char × List Char) :=
  if matchesAt ("---\n".toList) content then
    match findSub ("\n---\n".toList) (content.drop 4) with
    | some k => some ((content.drop 4).take k, (content.drop 4).drop (k + 5))
    | none => none
  else none

/-- Index of the first `"` in `s`, failing at the first newline: the
closing quote of the non-greedy group `(.*?)"`, whose `.` does not match
`\n` (the searches at lines 117-119 are not DOTALL). -/
def findQuote : List Char → Option Nat
  | [] => none
  | c :: rest =>
    if c = '"' then some 0
    else if c = '\n' then none
    else (findQuote rest).map (· + 1)

/-- `re.search(key + r'(.*?)"', meta).group(1)` for a fixed literal `key`
such as `title: "` (lines 117-119): at the first position where `key`
occurs and a closing `"` follows on the same line, capture the characters
between them; `None` when no position matches. -/
def searchCapture (pat : List Char) : List Char → Option (List Char)
  | [] => none
  | c :: rest =>
    if matchesAt pat (c :: rest) then
      match findQuote ((c :: rest).drop pat.length) with
      | some j => some (((c :: rest).drop pat.length).take j)
      | none => searchCapture pat rest
    else searchCapture pat rest

/-- Ingestion of one markdown file's content (loop body of
`process_markdown`): extract the frontmatter metadata, strip the header,
chunk the remainder. A present header with a missing required field makes
`.group(1)` raise `AttributeError`. -/
def processMarkdownDoc (content : List Char) :
    Except IngestError (MarkdownMeta × List (List Char)) :=
  match matchFrontmatter content with
  | none => .ok (⟨[], [], []⟩, create_chunks content)
  | some (meta, body) =>
    match searchCapture ("title: \"".toList) meta with
    | none => .error .attributeError
    | some t =>
      match searchCapture ("original_url: \"".toList) meta with
      | none => .error .attributeError
      | some u =>
        match searchCapture ("downloaded_at: \"".toList) meta with
        | none => .error .attributeError
        | some d => .ok (⟨t, u, d⟩, create_chunks body)

/-- The rows inserted for one markdown document (lines 122-127). -/
def mdRows (startId : Nat) (m : MarkdownMeta) (chunks : List (List Char)) :
    List (ChunkRow MarkdownMeta) :=
  chunks.enum.map (fun ic => ⟨startId + ic.1, m, ic.1, ic.2, none⟩)

/-- `process_markdown` over a list of file contents. An exception aborts
the run before the single `conn.commit()` at line 128, so on error nothing
is persisted and only the error is reported. -/
def process_markdown : List (List Char) → Store → Except IngestError Store
  | [], st => .ok st
  | doc :: rest, st =>
    match processMarkdownDoc doc with
    | .error e => .error e
    | .ok (m, cs) =>
      process_markdown rest
        { st with markdown := st.markdown ++ mdRows st.nextMid m cs,
                  nextMid := st.nextMid + cs.length }

/-! ### Embedding backfill (`generate_embeddings`, preprocess.py lines 132-161) -/

/-- `SELECT id, content FROM <table> WHERE embedding IS NULL` (lines 141,
145): the unembedded rows, in table order. -/
def fetchUnembedded {μ : Type} (tbl : List (ChunkRow μ)) : List (Nat × List Char) :=
  (tbl.filter (fun r => r.embedding.isNone)).map (fun r => (r.id, r.content))

/-- `UPDATE <table> SET embedding=? WHERE id=?` (line 157): set the
embedding of every row whose `id` matches (SQLite reports no error when
none does). -/
def setEmbedding {μ : Type} (tbl : List (ChunkRow μ)) (i : Nat) (v : Blob) :
    List (ChunkRow μ) :=
  tbl.map (fun r => if r.id = i then { r with embedding := some v } else r)

/-- The per-table loop of `generate_embeddings`: one service call and one
committed UPDATE per fetched row, in fetched order. `svc` maps a row's
content to the BLOB stored for it (the encoded first vector of the
service response); a run that reaches the loop's end is a successful run. -/
def backfillTable {μ : Type} (svc : List Char → Blob) (todo : List (Nat × List Char))
    (tbl : List (ChunkRow μ)) : List (ChunkRow μ) :=
  todo.foldl (fun acc ic => setEmbedding acc ic.1 (svc ic.2)) tbl

/-- `generate_embeddings`: fetch the unembedded rows of both tables, then
embed and update each row of each table in order. Returns the updated
store and the number of embedding-service calls performed. -/
def generate_embeddings (svc : List Char → Blob) (st : Store) : Store × Nat :=
  let todoD := fetchUnembedded st.discourse
  let todoM := fetchUnembedded st.markdown
  ({ st with discourse := backfillTable svc todoD st.discourse,
             markdown := backfillTable svc todoM st.markdown },
    todoD.length + todoM.length)

/-! ### The operations of the core, as one step type (for the store
invariants of the spec). -/

/-- One run of an operation of the core against the store. -/
inductive CoreOp where
  | ingestDiscourse (posts : List Post)
  | ingestMarkdown (docs : List (List Char))
  | backfill (svc : List Char → Blob)

/-- Apply one operation to the store; `.error` means the Python process
died with an exception before committing. -/
def applyOp : CoreOp → Store → Except IngestError Store
  | .ingestDiscourse posts, st => .ok (process_discourse posts st)
  | .ingestMarkdown docs, st => process_markdown docs st
  | .backfill svc, st => .ok (generate_embeddings svc st).1

/-! ### Chunker claims -/

theorem create_chunks_eq (text : List Char) :
    create_chunks text
      = if (normalizeWS text).length ≤ CHUNK_SIZE then [normalizeWS text]
        else chunkAux (normalizeWS text) CHUNK_SIZE (CHUNK_SIZE - CHUNK_OVERLAP)
          (normalizeWS text).length 0 := rfl

/-- C7: for every already-normalized text `t` with `len(t) ≤ size`,
`create_chunks t = [t]`; the result is never the empty sequence for any
input; and the empty input yields one empty-string chunk. -/
theorem claim_C7 :
    (∀ t : List Char, normalizeWS t = t → t.length ≤ CHUNK_SIZE →
        create_chunks t = [t])
    ∧ (∀ t : List Char, create_chunks t ≠ [])
    ∧ create_chunks [] = [[]] := by
  refine ⟨?_, ?_, rfl⟩
  · intro t ht hlen
    rw [create_chunks_eq, ht, if_pos hlen]
  · intro t h
    rw [create_chunks_eq] at h
    rcases le_or_lt (normalizeWS t).length CHUNK_SIZE with hle | hgt
    · rw [if_pos hle] at h
      exact List.cons_ne_nil _ _ h
    · rw [if_neg (not_le.mpr hgt)] at h
      have hC : CHUNK_SIZE = 1000 := rfl
      have h0 : 0 < (normalizeWS t).length := by omega
      obtain ⟨f, hf⟩ : ∃ f, (normalizeWS t).length = f + 1 :=
        ⟨(normalizeWS t).length - 1, by omega⟩
      rw [hf, chunkAux_cons _ _ _ f 0 (by omega)] at h
      exact List.cons_ne_nil _ _ h

/-- Witness for C7 at a concrete one-character input. -/
theorem claim_C7_witness : create_chunks ['a'] = [['a']] :=
  claim_C7.1 ['a'] (by decide) (by decide)

theorem dropWhile_replicate_of_not_space (c : Char) (hc : ¬pyIsSpace c = true) (n : Nat) :
    (List.replicate n c).dropWhile pyIsSpace = List.replicate n c := by
  induction n with
  | zero => rfl
  | succ m ih =>
    rw [List.replicate_succ, List.dropWhile_cons, if_neg hc, ← List.replicate_succ]

theorem normalizeWS_replicate (c : Char) (hc : ¬pyIsSpace c = true)
    (hn : replNewline c = c) (n : Nat) :
    normalizeWS (List.replicate n c) = List.replicate n c := by
  rw [normalizeWS, List.map_replicate, hn, pyStrip,
    dropWhile_replicate_of_not_space c hc, List.reverse_replicate,
    dropWhile_replicate_of_not_space c hc, List.reverse_replicate]

/-- C8: chunking the 1500-character string `"A"*1500` (size 1000, overlap
200) yields exactly the two chunks at character offsets `[0,1000)` and
`[800,1500)`, the latter of length 700. -/
theorem claim_C8 :
    create_chunks (List.replicate 1500 'A')
      = [(List.replicate 1500 'A').take 1000,
          ((List.replicate 1500 'A').drop 800).take 1000]
    ∧ (((List.replicate 1500 'A').drop 800).take 1000).length = 700 := by
  have hC : CHUNK_SIZE = 1000 := rfl
  have hS : CHUNK_SIZE - CHUNK_OVERLAP = 800 := rfl
  have hL : (List.replicate 1500 'A').length = 1500 := List.length_replicate 1500 'A'
  constructor
  · rw [create_chunks_eq, normalizeWS_replicate 'A' (by decide) (by decide) _, hS, hC,
      if_neg (by rw [hL]; norm_num)]
    apply List.ext_getElem?
    intro n
    rw [chunkAux_getElem? (List.replicate 1500 'A') _ 0 n (by omega)]
    rcases n with _ | (_ | m)
    · rw [if_pos (by rw [hL]; norm_num)]
      simp
    · rw [if_pos (by rw [hL]; norm_num)]
      simp
    · rw [if_neg (by rw [hL]; omega)]
      simp
  · rw [List.length_take, List.length_drop, hL]
    omega

/-- C4: for every input whose normalized length exceeds the chunk size,
chunk 0 followed by every later chunk stripped of its first
`CHUNK_OVERLAP` characters concatenates back to the normalized text. -/
theorem claim_C4 (text : List Char)
    (h : CHUNK_SIZE < (normalizeWS text).length) :
    ((create_chunks text).headD [])
      ++ (((create_chunks text).tail).map (fun c => c.drop CHUNK_OVERLAP)).flatten
      = normalizeWS text := by
  have hC : CHUNK_SIZE = 1000 := rfl
  have hO : CHUNK_OVERLAP = 200 := rfl
  have hS : CHUNK_SIZE - CHUNK_OVERLAP = 800 := rfl
  rw [create_chunks_eq, if_neg (not_le.mpr h), hS, hC, hO]
  obtain ⟨f, hf⟩ : ∃ f, (normalizeWS text).length = f + 1 :=
    ⟨(normalizeWS text).length - 1, by omega⟩
  rw [hf, chunkAux_cons _ _ _ f 0 (by omega)]
  simp only [List.headD_cons, List.tail_cons]
  rw [chunkAux_join_drop (normalizeWS text) f 800 (by omega)]
  rw [List.drop_zero]
  have he : (800 : Nat) + 200 = 1000 := by norm_num
  rw [he]
  exact List.take_append_drop 1000 (normalizeWS text)

/-- Witness for C4 at the concrete input `"A"*1001`. -/
theorem claim_C4_witness :
    ((create_chunks (List.replicate 1001 'A')).headD [])
      ++ (((create_chunks (List.replicate 1001 'A')).tail).map
            (fun c => c.drop CHUNK_OVERLAP)).flatten
      = normalizeWS (List.replicate 1001 'A') :=
  claim_C4 (List.replicate 1001 'A')
    (by rw [normalizeWS_replicate 'A' (by decide) (by decide) _, List.length_replicate]; decide)

/-- C5: for every text with normalized length above the chunk size, the
last `CHUNK_OVERLAP` characters of chunk `k` equal the first
`CHUNK_OVERLAP` characters of chunk `k+1` for every consecutive pair other
than the final one (`k+1` not the last index). -/
theorem claim_C5 (text : List Char) (k : Nat)
    (h : CHUNK_SIZE < (normalizeWS text).length)
    (hk : k + 2 < (create_chunks text).length) :
    (((create_chunks text).getD k []).drop
        (((create_chunks text).getD k []).length - CHUNK_OVERLAP))
      = ((create_chunks text).getD (k + 1) []).take CHUNK_OVERLAP := by
  have hC : CHUNK_SIZE = 1000 := rfl
  have hO : CHUNK_OVERLAP = 200 := rfl
  have hS : CHUNK_SIZE - CHUNK_OVERLAP = 800 := rfl
  rw [create_chunks_eq, if_neg (not_le.mpr h), hS, hC] at hk ⊢
  rw [hO]
  rw [chunkAux_length (normalizeWS text) (normalizeWS text).length 0 (by omega)] at hk
  have hL : 800 * k + 1601 ≤ (normalizeWS text).length := by
    have h4 : (k + 3) * 800 ≤ (normalizeWS text).length - 0 + 799 :=
      (Nat.le_div_iff_mul_le (by norm_num)).mp hk
    omega
  rw [List.getD_eq_getElem?_getD, List.getD_eq_getElem?_getD,
    chunkAux_getElem? (normalizeWS text) (normalizeWS text).length 0 k (by omega),
    chunkAux_getElem? (normalizeWS text) (normalizeWS text).length 0 (k + 1) (by omega),
    if_pos (by omega : 0 + 800 * k < (normalizeWS text).length),
    if_pos (by omega : 0 + 800 * (k + 1) < (normalizeWS text).length)]
  simp only [Option.getD_some]
  have hlen : (((normalizeWS text).drop (0 + 800 * k)).take 1000).length = 1000 := by
    rw [List.length_take, List.length_drop]
    omega
  rw [hlen]
  have h1 : (((normalizeWS text).drop (0 + 800 * k)).take 1000).drop (1000 - 200)
      = (((normalizeWS text).drop (0 + 800 * k)).drop 800).take 200 := by
    rw [List.drop_take]
  have h3 : min 200 1000 = 200 := by norm_num
  rw [h1, List.drop_drop, List.take_take, h3]
  congr 1

/-- Witness for C5 at the concrete input `"A"*2500`, pair `(0, 1)`. -/
theorem claim_C5_witness :
    (((create_chunks (List.replicate 2500 'A')).getD 0 []).drop
        (((create_chunks (List.replicate 2500 'A')).getD 0 []).length - CHUNK_OVERLAP))
      = ((create_chunks (List.replicate 2500 'A')).getD 1 []).take CHUNK_OVERLAP :=
  claim_C5 (List.replicate 2500 'A') 0
    (by rw [normalizeWS_replicate 'A' (by decide) (by decide) _, List.length_replicate]; decide)
    (by
      have hC : CHUNK_SIZE = 1000 := rfl
      have hS : CHUNK_SIZE - CHUNK_OVERLAP = 800 := rfl
      rw [create_chunks_eq, normalizeWS_replicate 'A' (by decide) (by decide) _, hS, hC,
        if_neg (by rw [List.length_replicate]; norm_num),
        chunkAux_length _ _ 0 (by omega), List.length_replicate]
      norm_num)

/-- C10: the chunker normalizes whitespace itself — chunking a raw text
and chunking its normalized form (newlines replaced by spaces, ends
stripped) produce the same chunk sequence. -/
theorem claim_C10 (t : List Char) :
    create_chunks t = create_chunks (normalizeWS t) := by
  rw [create_chunks_eq, create_chunks_eq, normalizeWS_idem]

/-! ### Claim C1: discourse ingestion of a 2500-character post -/

/-- The chunk count of a text whose normalized length is 2500. -/
theorem create_chunks_length_2500 (x : List Char)
    (h : (normalizeWS x).length = 2500) :
    (create_chunks x).length = 4 := by
  have hC : CHUNK_SIZE = 1000 := rfl
  have hS : CHUNK_SIZE - CHUNK_OVERLAP = 800 := rfl
  rw [create_chunks_eq, if_neg (by omega), hS, hC,
    chunkAux_length (normalizeWS x) (normalizeWS x).length 0 (by omega), h]

/-- A concrete post whose content is 2500 characters long. -/
def cpost : Post :=
  ⟨101, 7, [], 3, [], [], 0, [], List.replicate 2500 'B'⟩

/-- C1 counterexample: ingesting the concrete 2500-character post `cpost`
into the fresh store yields 4 chunk rows, not the 3 the claim states. -/
theorem claim_C1_counterexample :
    (normalizeWS cpost.content).length = 2500
    ∧ (process_discourse [cpost] emptyStore).discourse.length = 4
    ∧ (process_discourse [cpost] emptyStore).discourse.length ≠ 3 := by
  have hn : (normalizeWS cpost.content).length = 2500 := by
    show (normalizeWS (List.replicate 2500 'B')).length = 2500
    rw [normalizeWS_replicate 'B' (by decide) (by decide), List.length_replicate]
  refine ⟨hn, ?_, ?_⟩ <;>
  · have he : (process_discourse [cpost] emptyStore).discourse
        = [] ++ postRows 1 cpost := rfl
    rw [he, List.nil_append, postRows, List.length_map, List.enum_length,
      create_chunks_pyStrip, create_chunks_length_2500 cpost.content hn]
    try omega

/-- C1 (amended): ingesting one discussion post whose content is 2500
characters long after whitespace normalization yields exactly 4 chunk
rows, with `chunk_index` values 0, 1, 2, 3, all sharing the post's
`post_id`. -/
theorem claim_C1 (p : Post) (st : Store)
    (h : (normalizeWS p.content).length = 2500) :
    ((process_discourse [p] st).discourse.drop st.discourse.length).length = 4
    ∧ ((process_discourse [p] st).discourse.drop st.discourse.length).map
        (fun r => r.chunk_index) = [0, 1, 2, 3]
    ∧ ∀ r ∈ (process_discourse [p] st).discourse.drop st.discourse.length,
        r.meta.post_id = p.post_id := by
  have he : (process_discourse [p] st).discourse
      = st.discourse ++ postRows st.nextDid p := rfl
  rw [he, List.drop_left]
  have hlen : (create_chunks (pyStrip p.content)).length = 4 := by
    rw [create_chunks_pyStrip]
    exact create_chunks_length_2500 p.content h
  refine ⟨?_, ?_, ?_⟩
  · rw [postRows, List.length_map, List.enum_length, hlen]
  · rw [postRows, List.map_map]
    have hcomp : ((fun r : ChunkRow DiscourseMeta => r.chunk_index)
          ∘ (fun ic : Nat × List Char =>
              (⟨st.nextDid + ic.1, p.meta, ic.1, ic.2, none⟩ : ChunkRow DiscourseMeta)))
        = Prod.fst := rfl
    rw [hcomp, List.enum_map_fst, hlen]
    rfl
  · intro r hr
    rw [postRows, List.mem_map] at hr
    obtain ⟨ic, _, rfl⟩ := hr
    rfl

/-- Witness for the amended C1 at the concrete post `cpost`. -/
theorem claim_C1_witness :
    ((process_discourse [cpost] emptyStore).discourse.drop
        emptyStore.discourse.length).length = 4
    ∧ ((process_discourse [cpost] emptyStore).discourse.drop
        emptyStore.discourse.length).map (fun r => r.chunk_index) = [0, 1, 2, 3]
    ∧ ∀ r ∈ (process_discourse [cpost] emptyStore).discourse.drop
        emptyStore.discourse.length,
        r.meta.post_id = cpost.post_id :=
  claim_C1 cpost emptyStore
    (by
      show (normalizeWS (List.replicate 2500 'B')).length = 2500
      rw [normalizeWS_replicate 'B' (by decide) (by decide), List.length_replicate])

/-! ### Claim C2: markdown ingestion error behavior -/

/-- A document with a frontmatter header whose meta block `q` contains
none of the required fields. -/
def cdoc : List Char := "---\nq\n---\nbody".toList

/-- C2 counterexample: at `cdoc` the header is present and `title` is
missing, and ingestion fails with `AttributeError` — not with the
`MalformedDocumentError` the claim names (which is a distinct error). -/
theorem claim_C2_counterexample :
    (matchFrontmatter cdoc).isSome = true
    ∧ processMarkdownDoc cdoc = .error .attributeError
    ∧ (Except.error IngestError.attributeError
        : Except IngestError (MarkdownMeta × List (List Char)))
      ≠ .error .malformedDocumentError := by
  refine ⟨rfl, rfl, ?_⟩
  intro h
  exact absurd (Except.error.inj h) (by decide)

/-- C2 (amended): if the frontmatter header block is present but one of
the three required fields fails to match, ingestion of that document dies
with Python's `AttributeError` (the code has no `MalformedDocumentError`);
a document with no header block at all is chunked with empty-string
metadata fields and is not an error. -/
theorem claim_C2 :
    (∀ fm body doc : List Char, matchFrontmatter doc = some (fm, body) →
        (searchCapture ("title: \"".toList) fm = none
          ∨ searchCapture ("original_url: \"".toList) fm = none
          ∨ searchCapture ("downloaded_at: \"".toList) fm = none) →
        processMarkdownDoc doc = .error .attributeError)
    ∧ (∀ doc : List Char, matchFrontmatter doc = none →
        processMarkdownDoc doc = .ok (⟨[], [], []⟩, create_chunks doc)) := by
  have hunf : ∀ fm body doc : List Char, matchFrontmatter doc = some (fm, body) →
      processMarkdownDoc doc
        = match searchCapture ("title: \"".toList) fm with
          | none => .error .attributeError
          | some t =>
            match searchCapture ("original_url: \"".toList) fm with
            | none => .error .attributeError
            | some u =>
              match searchCapture ("downloaded_at: \"".toList) fm with
              | none => .error .attributeError
              | some d => .ok (⟨t, u, d⟩, create_chunks body) := by
    intro fm body doc hm
    unfold processMarkdownDoc
    rw [hm]
  constructor
  · intro fm body doc hm hmiss
    rw [hunf fm body doc hm]
    rcases e1 : searchCapture ("title: \"".toList) fm with _ | t
    · rfl
    · rcases e2 : searchCapture ("original_url: \"".toList) fm with _ | u
      · rfl
      · rcases e3 : searchCapture ("downloaded_at: \"".toList) fm with _ | d
        · rfl
        · exfalso
          rcases hmiss with h | h | h
          · rw [e1] at h; exact Option.noConfusion h
          · rw [e2] at h; exact Option.noConfusion h
          · rw [e3] at h; exact Option.noConfusion h
  · intro doc hm
    unfold processMarkdownDoc
    rw [hm]

/-- Witness for the amended C2: the failing header case at `cdoc`, and the
permissive no-header case at a concrete headerless document. -/
theorem claim_C2_witness :
    processMarkdownDoc cdoc = .error .attributeError
    ∧ processMarkdownDoc ("no header here".toList)
        = .ok (⟨[], [], []⟩, create_chunks ("no header here".toList)) :=
  ⟨claim_C2.1 ("q".toList) ("body".toList) cdoc (by rfl) (Or.inl (by rfl)),
    claim_C2.2 ("no header here".toList) (by rfl)⟩

/-! ### Claim C3: `set_embedding` semantics -/

theorem setEmbedding_cons {μ : Type} (a : ChunkRow μ) (tbl : List (ChunkRow μ))
    (i : Nat) (v : Blob) :
    setEmbedding (a :: tbl) i v
      = (if a.id = i then { a with embedding := some v } else a)
          :: setEmbedding tbl i v := rfl

theorem setEmbedding_append {μ : Type} (l₁ l₂ : List (ChunkRow μ)) (i : Nat) (v : Blob) :
    setEmbedding (l₁ ++ l₂) i v = setEmbedding l₁ i v ++ setEmbedding l₂ i v := by
  rw [setEmbedding, setEmbedding, setEmbedding, List.map_append]

theorem setEmbedding_of_not_mem {μ : Type} (i : Nat) (v : Blob) :
    ∀ tbl : List (ChunkRow μ), (∀ r ∈ tbl, r.id ≠ i) → setEmbedding tbl i v = tbl := by
  intro tbl
  induction tbl with
  | nil => intro _; rfl
  | cons a rest ih =>
    intro h
    rw [setEmbedding_cons, if_neg (h a (List.mem_cons_self a rest)),
      ih (fun r hr => h r (List.mem_cons_of_mem a hr))]

/-- A concrete provenance record. -/
def dmeta0 : DiscourseMeta := ⟨1, 1, [], 1, [], [], 0, []⟩

/-- Concrete rows and tables for the `set_embedding` claims. -/
def drow1 : ChunkRow DiscourseMeta := ⟨1, dmeta0, 0, ['x'], none⟩

def drow2 : ChunkRow DiscourseMeta := ⟨2, dmeta0, 1, ['y'], none⟩

def ctbl : List (ChunkRow DiscourseMeta) := [drow1, drow2]

/-- C3 counterexample: updating id 5 in a table that has no row with id 5
raises nothing and changes nothing — the UPDATE is a silent no-op, it does
not update exactly one row and there is no `NotFoundError` (the operation
is total). -/
theorem claim_C3_counterexample :
    (∀ r ∈ ctbl, r.id ≠ 5) ∧ setEmbedding ctbl 5 ['v'] = ctbl :=
  ⟨by decide, rfl⟩

/-- C3 (amended): `set_embedding` rewrites the embedding of every row
whose `id` matches — exactly one row when exactly one row bears that id —
and is a silent no-op (table unchanged, no error) when no row with that id
exists. -/
theorem claim_C3 {μ : Type} (tbl : List (ChunkRow μ)) (i : Nat) (v : Blob) :
    ((∀ r ∈ tbl, r.id ≠ i) → setEmbedding tbl i v = tbl)
    ∧ (∀ pre r suf, tbl = pre ++ r :: suf → r.id = i →
        (∀ x ∈ pre, x.id ≠ i) → (∀ x ∈ suf, x.id ≠ i) →
        setEmbedding tbl i v = pre ++ { r with embedding := some v } :: suf) := by
  constructor
  · exact setEmbedding_of_not_mem i v tbl
  · intro pre r suf htbl hr hpre hsuf
    rw [htbl, setEmbedding_append, setEmbedding_cons, if_pos hr,
      setEmbedding_of_not_mem i v pre hpre, setEmbedding_of_not_mem i v suf hsuf]

/-- Witness for the amended C3 at the concrete table `ctbl`: the no-op
case for the absent id 5, and the exactly-one-row case for id 2. -/
theorem claim_C3_witness :
    setEmbedding ctbl 5 ['v'] = ctbl
    ∧ setEmbedding ctbl 2 ['v'] = [drow1, { drow2 with embedding := some ['v'] }] :=
  ⟨(claim_C3 ctbl 5 ['v']).1 (by decide),
    (claim_C3 ctbl 2 ['v']).2 [drow1] drow2 [] rfl rfl (by decide) (by decide)⟩

/-! ### Backfill lemmas -/

theorem mem_setEmbedding {μ : Type} {tbl : List (ChunkRow μ)} {i : Nat} {v : Blob}
    {r' : ChunkRow μ} (h : r' ∈ setEmbedding tbl i v) :
    ∃ r ∈ tbl, r' = if r.id = i then { r with embedding := some v } else r := by
  rw [setEmbedding] at h
  rcases List.mem_map.mp h with ⟨r, hr, he⟩
  exact ⟨r, hr, he.symm⟩

theorem setEmbedding_getElem? {μ : Type} (tbl : List (ChunkRow μ)) (i : Nat) (v : Blob)
    (k : Nat) :
    (setEmbedding tbl i v)[k]?
      = (tbl[k]?).map (fun r => if r.id = i then { r with embedding := some v } else r) := by
  rw [setEmbedding, List.getElem?_map]

theorem backfillTable_cons {μ : Type} (svc : List Char → Blob) (ic : Nat × List Char)
    (rest : List (Nat × List Char)) (tbl : List (ChunkRow μ)) :
    backfillTable svc (ic :: rest) tbl
      = backfillTable svc rest (setEmbedding tbl ic.1 (svc ic.2)) := rfl

/-- After the per-table loop runs over a work list covering every
unembedded row's id, no row of the result is unembedded. -/
theorem backfillTable_not_none {μ : Type} (svc : List Char → Blob) :
    ∀ (todo : List (Nat × List Char)) (tbl : List (ChunkRow μ)),
      (∀ r ∈ tbl, r.embedding = none → r.id ∈ todo.map Prod.fst) →
      ∀ r ∈ backfillTable svc todo tbl, r.embedding ≠ none := by
  intro todo
  induction todo with
  | nil =>
    intro tbl h r hr hnone
    have := h r hr hnone
    simp at this
  | cons ic rest ih =>
    intro tbl h r hr
    rw [backfillTable_cons] at hr
    refine ih (setEmbedding tbl ic.1 (svc ic.2)) ?_ r hr
    intro r' hr' hnone'
    obtain ⟨r0, hr0, he⟩ := mem_setEmbedding hr'
    by_cases hid : r0.id = ic.1
    · rw [if_pos hid] at he
      rw [he] at hnone'
      exact absurd hnone' (by simp)
    · rw [if_neg hid] at he
      rw [he] at hnone'
      have hmem := h r0 hr0 hnone'
      rw [List.map_cons] at hmem
      rcases List.mem_cons.mp hmem with h1 | h1
      · exact absurd h1 hid
      · rw [he]; exact h1

/-- Every unembedded row's id appears in the fetched work list. -/
theorem fetchUnembedded_covers {μ : Type} (tbl : List (ChunkRow μ))
    (r : ChunkRow μ) (hr : r ∈ tbl) (hnone : r.embedding = none) :
    r.id ∈ (fetchUnembedded tbl).map Prod.fst := by
  rw [fetchUnembedded, List.map_map]
  exact List.mem_map.mpr
    ⟨r, List.mem_filter.mpr ⟨hr, by rw [hnone]; rfl⟩, rfl⟩

theorem fetchUnembedded_eq_nil {μ : Type} (tbl : List (ChunkRow μ))
    (h : ∀ r ∈ tbl, r.embedding ≠ none) : fetchUnembedded tbl = [] := by
  rw [fetchUnembedded]
  have hf : tbl.filter (fun r => r.embedding.isNone) = [] := by
    rw [List.filter_eq_nil_iff]
    intro a ha hcon
    exact h a ha (Option.isNone_iff_eq_none.mp hcon)
  rw [hf]
  rfl

theorem generate_embeddings_fst (svc : List Char → Blob) (st : Store) :
    (generate_embeddings svc st).1
      = { st with
            discourse := backfillTable svc (fetchUnembedded st.discourse) st.discourse,
            markdown := backfillTable svc (fetchUnembedded st.markdown) st.markdown } := rfl

theorem generate_embeddings_snd (svc : List Char → Blob) (st : Store) :
    (generate_embeddings svc st).2
      = (fetchUnembedded st.discourse).length + (fetchUnembedded st.markdown).length := rfl

/-! ### Claim C6: backfill completeness and idempotence -/

/-- C6: after a backfill run completes over a fixed store,
`fetch_unembedded` returns the empty sequence for both tables, and a
second backfill run performs zero embedding-service calls. -/
theorem claim_C6 (svc : List Char → Blob) (st : Store) :
    fetchUnembedded ((generate_embeddings svc st).1).discourse = []
    ∧ fetchUnembedded ((generate_embeddings svc st).1).markdown = []
    ∧ (generate_embeddings svc ((generate_embeddings svc st).1)).2 = 0 := by
  have h1 : fetchUnembedded ((generate_embeddings svc st).1).discourse = [] := by
    rw [generate_embeddings_fst]
    exact fetchUnembedded_eq_nil _
      (backfillTable_not_none svc _ _ (fetchUnembedded_covers st.discourse))
  have h2 : fetchUnembedded ((generate_embeddings svc st).1).markdown = [] := by
    rw [generate_embeddings_fst]
    exact fetchUnembedded_eq_nil _
      (backfillTable_not_none svc _ _ (fetchUnembedded_covers st.markdown))
  exact ⟨h1, h2, by rw [generate_embeddings_snd, h1, h2]; rfl⟩

/-! ### Claim C9: a non-null embedding is never cleared -/

theorem process_discourse_discourse (posts : List Post) :
    ∀ st : Store, ∃ new, (process_discourse posts st).discourse = st.discourse ++ new
      ∧ ∀ r ∈ new, r.embedding = none := by
  induction posts with
  | nil => intro st; exact ⟨[], (List.append_nil _).symm, by intro r hr; simp at hr⟩
  | cons p rest ih =>
    intro st
    obtain ⟨new1, he1, hn1⟩ := ih
      { st with discourse := st.discourse ++ postRows st.nextDid p,
                nextDid := st.nextDid + (postRows st.nextDid p).length }
    refine ⟨postRows st.nextDid p ++ new1, ?_, ?_⟩
    · rw [← List.append_assoc]
      exact he1
    · intro r hr
      rcases List.mem_append.mp hr with h1 | h1
      · rw [postRows, List.mem_map] at h1
        obtain ⟨ic, _, rfl⟩ := h1
        rfl
      · exact hn1 r h1

theorem process_discourse_markdown (posts : List Post) :
    ∀ st : Store, (process_discourse posts st).markdown = st.markdown := by
  induction posts with
  | nil => intro st; rfl
  | cons p rest ih => intro st; exact ih _

theorem process_markdown_ok (docs : List (List Char)) :
    ∀ st st' : Store, process_markdown docs st = .ok st' →
      st'.discourse = st.discourse
      ∧ ∃ new, st'.markdown = st.markdown ++ new ∧ ∀ r ∈ new, r.embedding = none := by
  induction docs with
  | nil =>
    intro st st' h
    have he : st = st' := Except.ok.inj h
    subst he
    exact ⟨rfl, [], (List.append_nil _).symm, by intro r hr; simp at hr⟩
  | cons doc rest ih =>
    intro st st' h
    rw [process_markdown] at h
    rcases e : processMarkdownDoc doc with _ | mc
    · rw [e] at h; exact absurd h (by simp)
    · rw [e] at h
      obtain ⟨hd, new1, hm1, hn1⟩ := ih _ _ h
      refine ⟨hd, mdRows st.nextMid mc.1 mc.2 ++ new1, ?_, ?_⟩
      · rw [hm1, ← List.append_assoc]
      · intro r hr
        rcases List.mem_append.mp hr with h1 | h1
        · rw [mdRows, List.mem_map] at h1
          obtain ⟨ic, _, rfl⟩ := h1
          rfl
        · exact hn1 r h1

theorem backfillTable_preserves {μ : Type} (svc : List Char → Blob) :
    ∀ (todo : List (Nat × List Char)) (tbl : List (ChunkRow μ)) (k : Nat) (r : ChunkRow μ),
      tbl[k]? = some r → r.embedding ≠ none →
      ∃ r', (backfillTable svc todo tbl)[k]? = some r' ∧ r'.embedding ≠ none := by
  intro todo
  induction todo with
  | nil => intro tbl k r hk hne; exact ⟨r, hk, hne⟩
  | cons ic rest ih =>
    intro tbl k r hk hne
    rw [backfillTable_cons]
    refine ih (setEmbedding tbl ic.1 (svc ic.2)) k
      (if r.id = ic.1 then { r with embedding := some (svc ic.2) } else r) ?_ ?_
    · rw [setEmbedding_getElem?, hk]
      rfl
    · by_cases hid : r.id = ic.1
      · rw [if_pos hid]; simp
      · rw [if_neg hid]; exact hne

theorem getElem?_append_of_some {α : Type} {l₁ l₂ : List α} {k : Nat} {a : α}
    (h : l₁[k]? = some a) : (l₁ ++ l₂)[k]? = some a := by
  have hk : k < l₁.length := by
    by_contra hc
    rw [List.getElem?_eq_none (by omega)] at h
    exact Option.noConfusion h
  rw [List.getElem?_append, if_pos hk]
  exact h

/-- C9: no operation of the core changes a row's embedding from non-null
to null — every row position holding a non-null embedding still holds a
non-null embedding after any successful operation — and ingestion only
appends new rows, all with `embedding = null`. -/
theorem claim_C9 (op : CoreOp) (st st' : Store) (h : applyOp op st = .ok st') :
    ((∀ (k : Nat) (r : ChunkRow DiscourseMeta),
        st.discourse[k]? = some r → r.embedding ≠ none →
        ∃ r' : ChunkRow DiscourseMeta,
          st'.discourse[k]? = some r' ∧ r'.embedding ≠ none)
      ∧ (∀ (k : Nat) (r : ChunkRow MarkdownMeta),
        st.markdown[k]? = some r → r.embedding ≠ none →
        ∃ r' : ChunkRow MarkdownMeta,
          st'.markdown[k]? = some r' ∧ r'.embedding ≠ none))
    ∧ (∀ posts, op = .ingestDiscourse posts →
        ∃ new, st'.discourse = st.discourse ++ new ∧ ∀ r ∈ new, r.embedding = none)
    ∧ (∀ docs, op = .ingestMarkdown docs →
        ∃ new, st'.markdown = st.markdown ++ new ∧ ∀ r ∈ new, r.embedding = none) := by
  cases op with
  | ingestDiscourse posts =>
    have hst : st' = process_discourse posts st := (Except.ok.inj h).symm
    subst hst
    obtain ⟨new, he, hn⟩ := process_discourse_discourse posts st
    refine ⟨⟨?_, ?_⟩, ?_, ?_⟩
    · intro k r hk hne
      exact ⟨r, by rw [he]; exact getElem?_append_of_some hk, hne⟩
    · intro k r hk hne
      exact ⟨r, by rw [process_discourse_markdown]; exact hk, hne⟩
    · intro _ _; exact ⟨new, he, hn⟩
    · intro docs hcon; exact absurd hcon (by simp)
  | ingestMarkdown docs =>
    obtain ⟨hd, new, he, hn⟩ := process_markdown_ok docs st st' h
    refine ⟨⟨?_, ?_⟩, ?_, ?_⟩
    · intro k r hk hne
      exact ⟨r, by rw [hd]; exact hk, hne⟩
    · intro k r hk hne
      exact ⟨r, by rw [he]; exact getElem?_append_of_some hk, hne⟩
    · intro _ hcon; exact absurd hcon (by simp)
    · intro _ _; exact ⟨new, he, hn⟩
  | backfill svc =>
    have hst : st' = (generate_embeddings svc st).1 := (Except.ok.inj h).symm
    subst hst
    refine ⟨⟨?_, ?_⟩, ?_, ?_⟩
    · intro k r hk hne
      exact backfillTable_preserves svc (fetchUnembedded st.discourse) st.discourse k r hk hne
    · intro k r hk hne
      exact backfillTable_preserves svc (fetchUnembedded st.markdown) st.markdown k r hk hne
    · intro _ hcon; exact absurd hcon (by simp)
    · intro _ hcon; exact absurd hcon (by simp)

/-- Witness for C9: a backfill over a store holding one already-embedded
discourse row keeps that row's embedding non-null. -/
theorem claim_C9_witness :
    ∃ r', ((generate_embeddings (fun _ => ['e'])
        ⟨[⟨1, dmeta0, 0, ['x'], some ['b']⟩], [], 2, 1⟩).1).discourse[0]? = some r'
      ∧ r'.embedding ≠ none :=
  ((claim_C9 (.backfill (fun _ => ['e']))
      ⟨[⟨1, dmeta0, 0, ['x'], some ['b']⟩], [], 2, 1⟩
      (generate_embeddings (fun _ => ['e'])
        ⟨[⟨1, dmeta0, 0, ['x'], some ['b']⟩], [], 2, 1⟩).1 rfl).1).1
    0 ⟨1, dmeta0, 0, ['x'], some ['b']⟩ rfl (by simp)

end Preprocess
